import Mathlib

/-!
Verification of the grid-trading buy-plan engine and instruction parser.

The development shallowly embeds the two revisions of the engine found in
the repository:

* `src/calculations.py` — module-level functions `validate_inputs`,
  `calculate_weights`, `calculate_buy_plan`, `calculate_with_reserve`,
  `parse_trading_instruction`;
* `src/core/trading_logic.py` — class `TradingLogic` with the same
  operations plus `ensure_default_values` and a config-driven grid-count
  guard.

Python floats are modelled as exact rationals (`ℚ`), Python ints as `ℤ`.
`numpy.exp` is modelled with `Real.exp`; the definitions touching it are
marked noncomputable, every other definition is executable.  Python
exceptions are modelled with `Except`; in-place mutation of the
`input_values` dict is modelled by returning the post-call dictionary.
-/

/-- Python `int(x)` conversion: truncation toward zero.  For the
nonnegative values reachable in the engine it coincides with the floor. -/
def pyInt (q : ℚ) : ℤ :=
  if 0 ≤ q then ⌊q⌋ else -⌊-q⌋

/-- Python `min(xs)` on a nonempty list; `0` for the empty list (Python
would raise, the empty case is unreachable in the engine). -/
def minOf : List ℚ → ℚ
  | [] => 0
  | p :: ps => ps.foldl min p

/-- Python `max(xs)` on a nonempty list; `0` for the empty list. -/
def maxOf : List ℚ → ℚ
  | [] => 0
  | p :: ps => ps.foldl max p

/-- Embedding of `numpy.linspace(high, low, n)` (endpoint included): `n`
evenly spaced values from `high` to `low`.  For `n = 1` numpy returns
`[high]`, for `n = 0` the empty array. -/
def linspace (high low : ℚ) (n : ℕ) : List ℚ :=
  if n = 0 then []
  else if n = 1 then [high]
  else (List.range n).map (fun i : ℕ => high + (low - high) * (i : ℚ) / ((n : ℚ) - 1))

/-- The eight validation failures of `validate_inputs`, in source order
(one constructor per `raise` site, both revisions raise the same
messages in the same order). -/
inductive InvalidInputError where
  | fundsNotPositive
  | initialPriceNotPositive
  | stopLossNotPositive
  | numGridsNotPositive
  | badAllocationMethod
  | stopLossNotBelowInitial
  | fundsBelowInitialPrice
  | tooManyGrids
deriving DecidableEq

/-- Embedding of `validate_inputs` (`src/calculations.py` lines 19–36) and
`TradingLogic.validate_inputs` (`src/core/trading_logic.py` lines 17–43):
the same eight checks in the same order in both revisions. -/
def validate_inputs (funds initial_price stop_loss_price : ℚ)
    (num_grids allocation_method : ℤ) : Except InvalidInputError Unit :=
  if funds ≤ 0 then .error .fundsNotPositive
  else if initial_price ≤ 0 then .error .initialPriceNotPositive
  else if stop_loss_price ≤ 0 then .error .stopLossNotPositive
  else if num_grids ≤ 0 then .error .numGridsNotPositive
  else if ¬(allocation_method = 0 ∨ allocation_method = 1 ∨ allocation_method = 2) then
    .error .badAllocationMethod
  else if initial_price ≤ stop_loss_price then .error .stopLossNotBelowInitial
  else if funds < initial_price then .error .fundsBelowInitialPrice
  else if 100 < num_grids then .error .tooManyGrids
  else .ok ()

/-- The spec's eight validation rules (§4.1), indexed 0–7 in the spec's
fixed order. -/
def rule (funds initial_price stop_loss_price : ℚ)
    (num_grids allocation_method : ℤ) : ℕ → Prop
  | 0 => 0 < funds
  | 1 => 0 < initial_price
  | 2 => 0 < stop_loss_price
  | 3 => 0 < num_grids
  | 4 => allocation_method = 0 ∨ allocation_method = 1 ∨ allocation_method = 2
  | 5 => stop_loss_price < initial_price
  | 6 => initial_price ≤ funds
  | 7 => num_grids ≤ 100
  | _ => True

/-- The error named for the spec rule of the same index. -/
def errOf : ℕ → InvalidInputError
  | 0 => .fundsNotPositive
  | 1 => .initialPriceNotPositive
  | 2 => .stopLossNotPositive
  | 3 => .numGridsNotPositive
  | 4 => .badAllocationMethod
  | 5 => .stopLossNotBelowInitial
  | 6 => .fundsBelowInitialPrice
  | _ => .tooManyGrids

instance (funds initial_price stop_loss_price : ℚ) (num_grids allocation_method : ℤ)
    (k : ℕ) :
    Decidable (rule funds initial_price stop_loss_price num_grids allocation_method k) := by
  unfold rule
  split <;> infer_instance

/-- Weight list of `TradingLogic.equal_amount_allocation`
(`trading_logic.py` lines 185–192): weight `1.0` for every price. -/
def equal_amount_allocation (num_prices : ℕ) : List ℚ :=
  List.replicate num_prices 1

/-- Weight list of `TradingLogic.linear_weighted_allocation`
(`trading_logic.py` lines 208–215) and of method 2 in
`calculations.calculate_weights`: `list(range(1, n + 1))`. -/
def linear_weighted_allocation (num_prices : ℕ) : List ℚ :=
  (List.range num_prices).map (fun i => ((i + 1 : ℕ) : ℚ))

/-- Weight list of `TradingLogic.exponential_allocation`
(`trading_logic.py` lines 194–206) and of method 1 in
`calculations.calculate_weights`: `exp(3 * (max - price) / range)`,
all ones when the range is zero.  `numpy.exp` is modelled by `Real.exp`. -/
noncomputable def exponential_allocation (prices : List ℚ) : List ℝ :=
  if maxOf prices - minOf prices = 0 then List.replicate prices.length 1
  else prices.map (fun p : ℚ =>
    Real.exp (3 * ((maxOf prices : ℝ) - (p : ℝ)) / ((maxOf prices : ℝ) - (minOf prices : ℝ))))

/-- Python `int()` on a real value (truncation toward zero), for the
exponential branch. -/
noncomputable def pyIntR (x : ℝ) : ℤ :=
  if 0 ≤ x then ⌊x⌋ else -⌊-x⌋

/-- `[max(1, int(max_shares * (weight / total_weight))) for weight in weights]`
over rational weights (methods 0 and 2). -/
def sharesFromWeightsQ (weights : List ℚ) (max_shares : ℤ) : List ℤ :=
  weights.map (fun w => max 1 (pyInt ((max_shares : ℚ) * (w / weights.sum))))

/-- The same list comprehension over real weights (method 1). -/
noncomputable def sharesFromWeightsR (weights : List ℝ) (max_shares : ℤ) : List ℤ :=
  weights.map (fun w => max 1 (pyIntR ((max_shares : ℝ) * (w / weights.sum))))

/-- Embedding of `calculate_weights` (`calculations.py` lines 40–66 and
`TradingLogic.calculate_weights`, `trading_logic.py` lines 155–183; the two
revisions behave identically): a single-price list takes all of
`max_shares`, otherwise the method's weights are turned into share counts.
The final `[]` models the invalid-method exception of both revisions
(unreachable after validation). -/
noncomputable def calculate_weights (prices : List ℚ) (method max_shares : ℤ) : List ℤ :=
  if prices.length = 1 then [max_shares]
  else if method = 0 then sharesFromWeightsQ (equal_amount_allocation prices.length) max_shares
  else if method = 1 then sharesFromWeightsR (exponential_allocation prices) max_shares
  else if method = 2 then sharesFromWeightsQ (linear_weighted_allocation prices.length) max_shares
  else []

/-- `sum(price * quantity for price, quantity in zip(prices, quantities))`. -/
def cost (prices : List ℚ) (qs : List ℤ) : ℚ :=
  ((prices.zip qs).map (fun pq => pq.1 * (pq.2 : ℚ))).sum

/-- The inner `for i in range(num_grids): if remaining >= prices[i]: ...
break` scan: the first index (with its price) whose price is within the
remaining funds. -/
def findFirst (remaining : ℚ) : List ℚ → Option (ℕ × ℚ)
  | [] => none
  | p :: ps =>
    if p ≤ remaining then some (0, p)
    else (findFirst remaining ps).map (fun ip => (ip.1 + 1, ip.2))

/-- Fuel-indexed unrolling of the leftover-fund `while` loop
(`calculations.py` lines 104–109, `trading_logic.py` lines 105–110):
while `remaining > min(prices)`, bump the first affordable grid and
subtract its price.  The fuel is an embedding artifact; `fuelFor` below
supplies enough of it for the loop to reach its exit condition, and the
fuel-stability theorem for claim C4 shows the result no longer depends on
it from that point on. -/
def distLoopF (fuel : ℕ) (prices : List ℚ) (qs : List ℤ) (remaining : ℚ) : List ℤ × ℚ :=
  match fuel with
  | 0 => (qs, remaining)
  | fuel + 1 =>
    if minOf prices < remaining then
      match findFirst remaining prices with
      | some ip => distLoopF fuel prices (qs.set ip.1 (qs.getD ip.1 0 + 1)) (remaining - ip.2)
      | none => (qs, remaining)
    else (qs, remaining)

/-- Enough fuel for the leftover loop: `remaining` loses at least
`min(prices)` per pass, so `⌈remaining / min(prices)⌉` passes suffice.
Outside the terminating domain (`min(prices) ≤ 0`, where the Python loop
would not terminate — unreachable, since validated prices are positive)
no fuel is supplied. -/
def fuelFor (prices : List ℚ) (remaining : ℚ) : ℕ :=
  if 0 < minOf prices then (⌈remaining / minOf prices⌉).toNat else 0

/-- The leftover-fund distribution loop. -/
def distribute (prices : List ℚ) (qs : List ℤ) (remaining : ℚ) : List ℤ × ℚ :=
  distLoopF (fuelFor prices remaining) prices qs remaining

/-- Python 3 `round(x)`: round half to even. -/
def roundHalfEven (q : ℚ) : ℤ :=
  if q - ⌊q⌋ < 1 / 2 then ⌊q⌋
  else if 1 / 2 < q - ⌊q⌋ then ⌊q⌋ + 1
  else if ⌊q⌋ % 2 = 0 then ⌊q⌋ else ⌊q⌋ + 1

/-- Python `round(x, 2)`. -/
def round2 (q : ℚ) : ℚ :=
  (roundHalfEven (q * 100) : ℚ) / 100

/-- The one warning the engine can put in the returned warning channel:
the too-many-single-share-grids notice (`calculations.py` lines 114–117,
`trading_logic.py` lines 114–117).  The grid-count downgrade is only
logged, so no constructor corresponds to it. -/
inductive CalcWarning where
  | tooManySingleShares
deriving DecidableEq

/-- The pre-reconciliation quantities of `calculations.calculate_buy_plan`
(lines 90–94): method 0 allocates an equal dollar amount
`funds / num_grids` per grid, every other method goes through
`calculate_weights`. -/
noncomputable def initial_quantities (funds : ℚ) (num_grids : ℤ) (prices : List ℚ)
    (method max_shares : ℤ) : List ℤ :=
  if method = 0 then prices.map (fun p => max 1 (pyInt ((funds / (num_grids : ℚ)) / p)))
  else calculate_weights prices method max_shares

/-- The body of `calculate_buy_plan` (`calculations.py` lines 77–120)
after successful validation, named so that runs can be evaluated in
steps.  The returned pair models `(buy_plan, warning_message)`, the empty
warning string modelled as `none`.  `n / 2` embeds Python
`num_grids // 2`; the reachable `num_grids` is nonnegative, where Lean
and Python integer division agree. -/
noncomputable def calc_core (funds initial_price stop_loss_price : ℚ)
    (num_grids allocation_method : ℤ) : List (ℚ × ℤ) × Option CalcWarning :=
  let max_shares := pyInt (funds / stop_loss_price)
  let n := if max_shares < num_grids then max_shares else num_grids
  let buy_prices := linspace initial_price stop_loss_price n.toNat
  let qs0 := initial_quantities funds n buy_prices allocation_method max_shares
  let qs1 := if funds < cost buy_prices qs0 then
      qs0.map (fun q : ℤ => max 1 (pyInt ((q : ℚ) * (funds / cost buy_prices qs0))))
    else qs0
  let qs2 := (distribute buy_prices qs1 (funds - cost buy_prices qs1)).1
  let buy_plan := (buy_prices.zip qs2).map (fun pq => (round2 pq.1, pq.2))
  let single_share_count := (buy_plan.filter (fun pq => pq.2 = 1)).length
  let warning_message := if n / 2 < (single_share_count : ℤ)
    then some CalcWarning.tooManySingleShares else none
  (buy_plan, warning_message)

/-- Embedding of `calculate_buy_plan` (`calculations.py` lines 70–120):
validate, then run the allocation pipeline. -/
noncomputable def calc_calculate_buy_plan (funds initial_price stop_loss_price : ℚ)
    (num_grids allocation_method : ℤ) :
    Except InvalidInputError (List (ℚ × ℤ) × Option CalcWarning) :=
  match validate_inputs funds initial_price stop_loss_price num_grids allocation_method with
  | .error e => .error e
  | .ok _ => .ok (calc_core funds initial_price stop_loss_price num_grids allocation_method)

/-- The configuration values `TradingLogic` reads: the `default_*` keys of
the trading config (`ensure_default_values`, `trading_logic.py` lines
342–361, code fallbacks 50000.0 / 50.0 / 30.0 / 10 / 1) and the
`General.max_num_grids` key (line 57, code fallback 10). -/
structure TradingConfig where
  default_funds : ℚ
  default_initial_price : ℚ
  default_stop_loss_price : ℚ
  default_num_grids : ℤ
  default_allocation_method : ℤ
  max_num_grids : ℤ
deriving DecidableEq

/-- The code-level fallback values of the configuration keys. -/
def defaultTradingConfig : TradingConfig :=
  ⟨50000, 50, 30, 10, 1, 10⟩

/-- The `input_values` dictionary passed around by `TradingLogic`. -/
structure InputValues where
  funds : ℚ
  initial_price : ℚ
  stop_loss_price : ℚ
  num_grids : ℤ
  allocation_method : ℤ
deriving DecidableEq

/-- Embedding of `TradingLogic.ensure_default_values` (`trading_logic.py`
lines 342–361): every key whose value is falsy — here the numeric value
`0`, the keys being always present — is replaced by the configured
default. -/
def ensure_default_values (cfg : TradingConfig) (v : InputValues) : InputValues where
  funds := if v.funds = 0 then cfg.default_funds else v.funds
  initial_price := if v.initial_price = 0 then cfg.default_initial_price else v.initial_price
  stop_loss_price := if v.stop_loss_price = 0 then cfg.default_stop_loss_price else v.stop_loss_price
  num_grids := if v.num_grids = 0 then cfg.default_num_grids else v.num_grids
  allocation_method := if v.allocation_method = 0 then cfg.default_allocation_method
    else v.allocation_method

/-- The three entries of the label list
`["等金额分配", "等比例分配", "线性加权分配"]` in `TradingLogic`
summaries. -/
inductive MethodLabel where
  | equalAmount
  | proportional
  | linearWeighted
deriving DecidableEq

/-- `["等金额分配", "等比例分配", "线性加权分配"][allocation_method]`;
the method is validated to be 0, 1 or 2, so the Python `IndexError` for
other values is unreachable. -/
def methodLabel (allocation_method : ℤ) : MethodLabel :=
  if allocation_method = 0 then .equalAmount
  else if allocation_method = 1 then .proportional
  else .linearWeighted

/-- The summary dictionary built by `TradingLogic.calculate_buy_plan`
(`trading_logic.py` lines 119–133). -/
structure TLSummary where
  total_shares : ℤ
  total_cost : ℚ
  average_price : ℚ
  max_loss : ℚ
  max_loss_percentage : ℚ
  allocation_method_label : MethodLabel
deriving DecidableEq

/-- The value of the middle (string) component of the triple returned by
`TradingLogic.calculate_buy_plan`: the empty string, the
too-many-single-share-grids warning, or — when validation fails and the
function returns `([], str(e), {})` — the text of the validation
error. -/
inductive TLMessage where
  | empty
  | tooManySingleShares
  | validationError (e : InvalidInputError)
deriving DecidableEq

/-- The exceptions raised (not returned) by `TradingLogic`:
`TradingLogicError` from the `max_num_grids` guard (`trading_logic.py`
lines 58–59) and from the extra check in `calculate_with_reserve`
(lines 234–235). -/
inductive TLError where
  | gridCountOutOfRange
  | nonPositiveCurrentPrice
deriving DecidableEq

/-- The allocation pipeline of `TradingLogic.calculate_buy_plan`
(`trading_logic.py` lines 84–136), run on the post-default values after
successful validation.  Identical to `calc_core` except that every
method — including method 0 — goes through `calculate_weights`, and a
summary is computed. -/
noncomputable def TL_core (v : InputValues) : List (ℚ × ℤ) × TLMessage × TLSummary :=
  let max_shares := pyInt (v.funds / v.stop_loss_price)
  let n := if max_shares < v.num_grids then max_shares else v.num_grids
  let buy_prices := linspace v.initial_price v.stop_loss_price n.toNat
  let qs0 := calculate_weights buy_prices v.allocation_method max_shares
  let qs1 := if v.funds < cost buy_prices qs0 then
      qs0.map (fun q : ℤ => max 1 (pyInt ((q : ℚ) * (v.funds / cost buy_prices qs0))))
    else qs0
  let qs2 := (distribute buy_prices qs1 (v.funds - cost buy_prices qs1)).1
  let buy_plan := (buy_prices.zip qs2).map (fun pq => (round2 pq.1, pq.2))
  let single_share_count := (buy_plan.filter (fun pq => pq.2 = 1)).length
  let warning_message := if n / 2 < (single_share_count : ℤ)
    then TLMessage.tooManySingleShares else TLMessage.empty
  let total_shares := (buy_plan.map (fun pq => pq.2)).sum
  let total_cost := (buy_plan.map (fun pq : ℚ × ℤ => pq.1 * (pq.2 : ℚ))).sum
  let average_price := if 0 < total_shares then total_cost / (total_shares : ℚ) else 0
  let max_loss := total_cost - (total_shares : ℚ) * v.stop_loss_price
  let max_loss_percentage := if 0 < total_cost then max_loss / total_cost * 100 else 0
  (buy_plan, warning_message,
    ⟨total_shares, total_cost, average_price, max_loss, max_loss_percentage,
      methodLabel v.allocation_method⟩)

/-- Embedding of `TradingLogic.calculate_buy_plan` (`trading_logic.py`
lines 45–136): the `max_num_grids` guard raises; then the falsy inputs
are replaced by configured defaults; a validation failure is returned —
not raised — as `([], str(e), {})`; otherwise the pipeline runs. -/
noncomputable def TL_calculate_buy_plan (cfg : TradingConfig)
    (funds initial_price stop_loss_price : ℚ) (num_grids allocation_method : ℤ) :
    Except TLError (List (ℚ × ℤ) × TLMessage × Option TLSummary) :=
  if num_grids ≤ 0 ∨ cfg.max_num_grids < num_grids then .error .gridCountOutOfRange
  else
    let v := ensure_default_values cfg
      ⟨funds, initial_price, stop_loss_price, num_grids, allocation_method⟩
    match validate_inputs v.funds v.initial_price v.stop_loss_price
        v.num_grids v.allocation_method with
    | .error e => .ok ([], .validationError e, none)
    | .ok _ =>
      let r := TL_core v
      .ok (r.1, r.2.1, some r.2.2)

/-- Embedding of `TradingLogic.calculate_with_reserve` (`trading_logic.py`
lines 217–239).  The Python code assigns
`input_values['funds'] = available_funds` into the caller's dictionary;
the mutation is modelled by returning the post-call dictionary as the
last component. -/
noncomputable def TL_calculate_with_reserve (cfg : TradingConfig)
    (input_values : InputValues) (reserve_percentage : ℤ) :
    Except TLError ((List (ℚ × ℤ) × TLMessage × Option TLSummary) × ℚ × InputValues) :=
  let reserved_funds := input_values.funds * ((reserve_percentage : ℚ) / 100)
  let v := { input_values with funds := input_values.funds - reserved_funds }
  if v.initial_price ≤ 0 then .error .nonPositiveCurrentPrice
  else
    match TL_calculate_buy_plan cfg v.funds v.initial_price v.stop_loss_price
        v.num_grids v.allocation_method with
    | .error e => .error e
    | .ok r => .ok (r, reserved_funds, v)

/-- Decimal digits to a natural number, `int(digit_string)`. -/
def digitsToNat (ds : List Char) : ℕ :=
  ds.foldl (fun n c => 10 * n + (c.toNat - 48)) 0

/-- `float()` of a regex match of `\d+(\.\d+)?` starting at the head of
`s` (the head is a digit at every call site): greedily read the integer
digits, then an optional dot followed by at least one digit.  Returns the
value and the rest of the text. -/
def parseNum (s : List Char) : ℚ × List Char :=
  let ds := s.takeWhile Char.isDigit
  let r := s.dropWhile Char.isDigit
  match r with
  | '.' :: rest =>
    let fs := rest.takeWhile Char.isDigit
    if fs = [] then ((digitsToNat ds : ℚ), r)
    else ((digitsToNat ds : ℚ) + (digitsToNat fs : ℚ) / 10 ^ fs.length,
      rest.dropWhile Char.isDigit)
  | _ => ((digitsToNat ds : ℚ), r)

/-- The leftmost number of the text (value and the rest after it).
`re.search` of the price pattern succeeds exactly when the text has a
digit, and its first captured number is the leftmost digit run, since the
pattern's prefix alternation `(?:区间|现价到?|)` admits the empty
prefix. -/
def findFirstNum : List Char → Option (ℚ × List Char)
  | [] => none
  | c :: cs => if c.isDigit then some (parseNum (c :: cs)) else findFirstNum cs

/-- The optional range separator `(?:-|到|之间|附近)?` after the first
number. -/
def dropRangeSep : List Char → List Char
  | '-' :: r => r
  | '到' :: r => r
  | '之' :: '间' :: r => r
  | '附' :: '近' :: r => r
  | s => s

/-- Embedding of the price part of
`re.search(r'(?:区间|现价到?|)(\d+(\.\d+)?)(?:-|到|之间|附近)?\s*(?:(\d+(\.\d+)?))?', s)`
(`trading_logic.py` line 256): the leftmost number, an optional
separator, optional whitespace, and an optional second number; with one
number the pair is `(n, n)`. -/
def extractPriceRange (s : List Char) : Option (ℚ × ℚ) :=
  match findFirstNum s with
  | none => none
  | some lr =>
    let rest := (dropRangeSep lr.2).dropWhile Char.isWhitespace
    match rest with
    | c :: _ => if c.isDigit then some (lr.1, (parseNum rest).1) else some (lr.1, lr.1)
    | [] => some (lr.1, lr.1)

/-- Embedding of `re.search(r'(?:日内)?([A-Z]+)', s)` group 1: the
leftmost maximal run of uppercase ASCII letters (the optional `日内`
prefix moves only the match start, never the captured group). -/
def extractSymbol : List Char → Option (List Char)
  | [] => none
  | c :: cs =>
    if c.isUpper then some (c :: cs.takeWhile Char.isUpper) else extractSymbol cs

/-- Embedding of `re.search(marker + r'(\d+(\.\d+)?)', s)` for the
two-character markers `止损` and `压力`: the number directly after the
leftmost occurrence of the marker that is followed by a digit. -/
def findMarkedNum (m1 m2 : Char) : List Char → Option ℚ
  | [] => none
  | c :: cs =>
    if c = m1 then
      match cs with
      | c2 :: rest =>
        if c2 = m2 then
          match rest with
          | d :: _ => if d.isDigit then some (parseNum rest).1 else findMarkedNum m1 m2 cs
          | [] => findMarkedNum m1 m2 cs
        else findMarkedNum m1 m2 cs
      | [] => none
    else findMarkedNum m1 m2 cs

/-- The dictionary built by a successful
`TradingLogic.parse_trading_instruction`; the optional `price_warning`
key is modelled as a flag. -/
structure ParsedInstruction where
  symbol : List Char
  current_price : ℚ
  stop_loss : Option ℚ
  price_range : Option (ℚ × ℚ)
  resistance : Option ℚ
  price_warning : Bool
deriving DecidableEq

/-- The ways `TradingLogic.parse_trading_instruction` can fail: the
invalid-range `TradingLogicError` (line 263), the missing-symbol-or-price
`TradingLogicError` (line 287), and the Python `TypeError` of
`stop_loss >= current_price` when `current_price` is `None` (line 273;
provably unreachable, kept for faithfulness). -/
inductive ParseError where
  | invalidRange
  | missingInfo
  | typeErrorNoneComparison
deriving DecidableEq

/-- Embedding of `TradingLogic.parse_trading_instruction`
(`trading_logic.py` lines 241–305).  The text is a character list
(Python `str`); `.upper()` is `Char.toUpper` (the texts of interest are
ASCII letters, digits and CJK punctuation, on which they agree). -/
def TL_parse_trading_instruction (instruction : List Char)
    (current_api_price : Option ℚ) : Except ParseError ParsedInstruction :=
  let s := instruction.map Char.toUpper
  let symbol := extractSymbol s
  match extractPriceRange s with
  | some lh =>
    if lh.2 < lh.1 then .error .invalidRange
    else
      let current_price := lh.2
      let stop_loss : Option ℚ :=
        match findMarkedNum '止' '损' s with
        | some sl =>
          if current_price ≤ sl then some (current_price * (95 / 100)) else some sl
        | none =>
          if lh.1 ≠ 0 then some lh.1
          else if current_price ≠ 0 then some (current_price * (95 / 100)) else none
      let resistance := findMarkedNum '压' '力' s
      match symbol with
      | none => .error .missingInfo
      | some sym =>
        let price_warning : Bool :=
          match current_api_price with
          | some api =>
            api ≠ 0 && current_price ≠ 0 && 1 / 10 < |api - current_price| / current_price
          | none => false
        .ok ⟨sym, current_price, stop_loss, some (lh.1, lh.2), resistance, price_warning⟩
  | none =>
    match findMarkedNum '止' '损' s with
    | some _ => .error .typeErrorNoneComparison
    | none => .error .missingInfo

instance {ε α : Type} [DecidableEq ε] [DecidableEq α] : DecidableEq (Except ε α) :=
  fun a b =>
  match a, b with
  | .error e, .error f =>
    if h : e = f then .isTrue (by rw [h]) else .isFalse (fun hh => h (by cases hh; rfl))
  | .ok x, .ok y =>
    if h : x = y then .isTrue (by rw [h]) else .isFalse (fun hh => h (by cases hh; rfl))
  | .error _, .ok _ => .isFalse (fun hh => by cases hh)
  | .ok _, .error _ => .isFalse (fun hh => by cases hh)

/-- Projection of the post-call `input_values` dictionary returned by
`TL_calculate_with_reserve`, used to state the C8 counterexample without
binders. -/
def cwrPostFunds :
    Except TLError ((List (ℚ × ℤ) × TLMessage × Option TLSummary) × ℚ × InputValues) →
      Option ℚ
  | .ok x => some x.2.2.funds
  | .error _ => none

/-- Success of validation is equivalent to the conjunction of the eight
rules. -/
theorem validate_inputs_ok_iff (f i s : ℚ) (n a : ℤ) :
    validate_inputs f i s n a = .ok () ↔
      0 < f ∧ 0 < i ∧ 0 < s ∧ 0 < n ∧ (a = 0 ∨ a = 1 ∨ a = 2) ∧ s < i ∧ i ≤ f ∧ n ≤ 100 := by
  unfold validate_inputs
  split_ifs with h1 h2 h3 h4 h5 h6 h7 h8 <;> simp_all

theorem validate_err0_iff (f i s : ℚ) (n a : ℤ) :
    validate_inputs f i s n a = .error .fundsNotPositive ↔ f ≤ 0 := by
  unfold validate_inputs
  split_ifs with h1 h2 h3 h4 h5 h6 h7 h8 <;> simp_all

theorem validate_err1_iff (f i s : ℚ) (n a : ℤ) :
    validate_inputs f i s n a = .error .initialPriceNotPositive ↔ 0 < f ∧ i ≤ 0 := by
  unfold validate_inputs
  split_ifs with h1 h2 h3 h4 h5 h6 h7 h8 <;> simp_all

theorem validate_err2_iff (f i s : ℚ) (n a : ℤ) :
    validate_inputs f i s n a = .error .stopLossNotPositive ↔ 0 < f ∧ 0 < i ∧ s ≤ 0 := by
  unfold validate_inputs
  split_ifs with h1 h2 h3 h4 h5 h6 h7 h8 <;> simp_all

theorem validate_err3_iff (f i s : ℚ) (n a : ℤ) :
    validate_inputs f i s n a = .error .numGridsNotPositive ↔
      0 < f ∧ 0 < i ∧ 0 < s ∧ n ≤ 0 := by
  unfold validate_inputs
  split_ifs with h1 h2 h3 h4 h5 h6 h7 h8 <;> simp_all

theorem validate_err4_iff (f i s : ℚ) (n a : ℤ) :
    validate_inputs f i s n a = .error .badAllocationMethod ↔
      0 < f ∧ 0 < i ∧ 0 < s ∧ 0 < n ∧ ¬(a = 0 ∨ a = 1 ∨ a = 2) := by
  unfold validate_inputs
  split_ifs with h1 h2 h3 h4 h5 h6 h7 h8 <;> simp_all

theorem validate_err5_iff (f i s : ℚ) (n a : ℤ) :
    validate_inputs f i s n a = .error .stopLossNotBelowInitial ↔
      0 < f ∧ 0 < i ∧ 0 < s ∧ 0 < n ∧ (a = 0 ∨ a = 1 ∨ a = 2) ∧ i ≤ s := by
  unfold validate_inputs
  split_ifs with h1 h2 h3 h4 h5 h6 h7 h8 <;> simp_all

theorem validate_err6_iff (f i s : ℚ) (n a : ℤ) :
    validate_inputs f i s n a = .error .fundsBelowInitialPrice ↔
      0 < f ∧ 0 < i ∧ 0 < s ∧ 0 < n ∧ (a = 0 ∨ a = 1 ∨ a = 2) ∧ s < i ∧ f < i := by
  unfold validate_inputs
  split_ifs with h1 h2 h3 h4 h5 h6 h7 h8 <;> simp_all

theorem validate_err7_iff (f i s : ℚ) (n a : ℤ) :
    validate_inputs f i s n a = .error .tooManyGrids ↔
      0 < f ∧ 0 < i ∧ 0 < s ∧ 0 < n ∧ (a = 0 ∨ a = 1 ∨ a = 2) ∧ s < i ∧ i ≤ f ∧
        100 < n := by
  unfold validate_inputs
  split_ifs with h1 h2 h3 h4 h5 h6 h7 h8 <;> simp_all

/-- C2: `validate_inputs` succeeds exactly when all eight rules of §4.1
hold, and it fails with the `InvalidInputError` naming the first
violated rule in the spec's fixed check order. -/
theorem C2_validate_inputs_first_violation (f i s : ℚ) (n a : ℤ) :
    (validate_inputs f i s n a = .ok () ↔ ∀ k, k < 8 → rule f i s n a k) ∧
    (∀ k, k < 8 →
      (validate_inputs f i s n a = .error (errOf k) ↔
        ¬ rule f i s n a k ∧ ∀ j, j < k → rule f i s n a j)) := by
  constructor
  · rw [validate_inputs_ok_iff]
    constructor
    · rintro ⟨h0, h1, h2, h3, h4, h5, h6, h7⟩ k hk
      interval_cases k
      · exact h0
      · exact h1
      · exact h2
      · exact h3
      · exact h4
      · exact h5
      · exact h6
      · exact h7
    · intro h
      exact ⟨h 0 (by omega), h 1 (by omega), h 2 (by omega), h 3 (by omega),
        h 4 (by omega), h 5 (by omega), h 6 (by omega), h 7 (by omega)⟩
  · intro k hk
    interval_cases k
    · rw [show errOf 0 = .fundsNotPositive from rfl, validate_err0_iff]
      constructor
      · intro hb
        exact ⟨not_lt.mpr hb, fun j hj => absurd hj (by omega)⟩
      · rintro ⟨hb, _⟩
        exact not_lt.mp hb
    · rw [show errOf 1 = .initialPriceNotPositive from rfl, validate_err1_iff]
      constructor
      · rintro ⟨h0, hb⟩
        refine ⟨not_lt.mpr hb, fun j hj => ?_⟩
        interval_cases j
        · exact h0
      · rintro ⟨hb, hj⟩
        exact ⟨hj 0 (by omega), not_lt.mp hb⟩
    · rw [show errOf 2 = .stopLossNotPositive from rfl, validate_err2_iff]
      constructor
      · rintro ⟨h0, h1, hb⟩
        refine ⟨not_lt.mpr hb, fun j hj => ?_⟩
        interval_cases j
        · exact h0
        · exact h1
      · rintro ⟨hb, hj⟩
        exact ⟨hj 0 (by omega), hj 1 (by omega), not_lt.mp hb⟩
    · rw [show errOf 3 = .numGridsNotPositive from rfl, validate_err3_iff]
      constructor
      · rintro ⟨h0, h1, h2, hb⟩
        refine ⟨not_lt.mpr hb, fun j hj => ?_⟩
        interval_cases j
        · exact h0
        · exact h1
        · exact h2
      · rintro ⟨hb, hj⟩
        exact ⟨hj 0 (by omega), hj 1 (by omega), hj 2 (by omega), not_lt.mp hb⟩
    · rw [show errOf 4 = .badAllocationMethod from rfl, validate_err4_iff]
      constructor
      · rintro ⟨h0, h1, h2, h3, hb⟩
        refine ⟨hb, fun j hj => ?_⟩
        interval_cases j
        · exact h0
        · exact h1
        · exact h2
        · exact h3
      · rintro ⟨hb, hj⟩
        exact ⟨hj 0 (by omega), hj 1 (by omega), hj 2 (by omega), hj 3 (by omega), hb⟩
    · rw [show errOf 5 = .stopLossNotBelowInitial from rfl, validate_err5_iff]
      constructor
      · rintro ⟨h0, h1, h2, h3, h4, hb⟩
        refine ⟨not_lt.mpr hb, fun j hj => ?_⟩
        interval_cases j
        · exact h0
        · exact h1
        · exact h2
        · exact h3
        · exact h4
      · rintro ⟨hb, hj⟩
        exact ⟨hj 0 (by omega), hj 1 (by omega), hj 2 (by omega), hj 3 (by omega),
          hj 4 (by omega), not_lt.mp hb⟩
    · rw [show errOf 6 = .fundsBelowInitialPrice from rfl, validate_err6_iff]
      constructor
      · rintro ⟨h0, h1, h2, h3, h4, h5, hb⟩
        refine ⟨not_le.mpr hb, fun j hj => ?_⟩
        interval_cases j
        · exact h0
        · exact h1
        · exact h2
        · exact h3
        · exact h4
        · exact h5
      · rintro ⟨hb, hj⟩
        exact ⟨hj 0 (by omega), hj 1 (by omega), hj 2 (by omega), hj 3 (by omega),
          hj 4 (by omega), hj 5 (by omega), not_le.mp hb⟩
    · rw [show errOf 7 = .tooManyGrids from rfl, validate_err7_iff]
      constructor
      · rintro ⟨h0, h1, h2, h3, h4, h5, h6, hb⟩
        refine ⟨not_le.mpr hb, fun j hj => ?_⟩
        interval_cases j
        · exact h0
        · exact h1
        · exact h2
        · exact h3
        · exact h4
        · exact h5
        · exact h6
      · rintro ⟨hb, hj⟩
        exact ⟨hj 0 (by omega), hj 1 (by omega), hj 2 (by omega), hj 3 (by omega),
          hj 4 (by omega), hj 5 (by omega), hj 6 (by omega), not_le.mp hb⟩

theorem linspace_length (h l : ℚ) (n : ℕ) : (linspace h l n).length = n := by
  unfold linspace
  split_ifs with h0 h1 <;> simp_all

theorem linspace_getD (h l : ℚ) (n : ℕ) (hn : 2 ≤ n) (i : ℕ) (hi : i < n) :
    (linspace h l n).getD i 0 = h + (l - h) * i / ((n : ℚ) - 1) := by
  unfold linspace
  rw [if_neg (by omega), if_neg (by omega), List.getD_eq_getElem?_getD,
    List.getElem?_map]
  simp [List.getElem?_range, hi]

/-- C6: the price grid for high `h`, low `l`, count `n` has exactly `n`
elements; for `n ≥ 2` it starts exactly at `h`, ends exactly at `l`, and
descends in equal steps of `(h - l)/(n - 1)`; for `n = 1` it is `[h]`. -/
theorem C6_price_grid (h l : ℚ) (n : ℕ) :
    (linspace h l n).length = n ∧
    (2 ≤ n →
      (linspace h l n).getD 0 0 = h ∧
      (linspace h l n).getD (n - 1) 0 = l ∧
      ∀ i, i + 1 < n →
        (linspace h l n).getD i 0 - (linspace h l n).getD (i + 1) 0 =
          (h - l) / ((n : ℚ) - 1)) ∧
    (n = 1 → linspace h l n = [h]) := by
  refine ⟨linspace_length h l n, fun hn => ?_, fun h1 => by simp [linspace, h1]⟩
  have hne : ((n : ℚ) - 1) ≠ 0 := by
    have h2 : (2 : ℚ) ≤ (n : ℚ) := by exact_mod_cast hn
    linarith
  refine ⟨?_, ?_, ?_⟩
  · rw [linspace_getD h l n hn 0 (by omega)]
    simp
  · rw [linspace_getD h l n hn (n - 1) (by omega)]
    have hc : ((n - 1 : ℕ) : ℚ) = (n : ℚ) - 1 := by
      have h1 : 1 ≤ n := by omega
      push_cast [h1]
      ring
    rw [hc, mul_div_assoc, div_self hne]
    ring
  · intro i hi
    rw [linspace_getD h l n hn i (by omega), linspace_getD h l n hn (i + 1) (by omega)]
    push_cast
    field_simp
    ring

/-- Witness for C6 at `h = 10`, `l = 4`, `n = 4` (and `n = 1`). -/
theorem C6_price_grid_witness :
    (linspace 10 4 4).length = 4 ∧ (linspace 10 4 4).getD 0 0 = 10 ∧
      (linspace 10 4 4).getD 3 0 = 4 ∧
      (linspace 10 4 4).getD 1 0 - (linspace 10 4 4).getD 2 0 = (10 - 4) / ((4 : ℚ) - 1) ∧
      linspace 10 (4 : ℚ) 1 = [10] := by
  obtain ⟨hlen, hmid, _⟩ := C6_price_grid 10 4 4
  obtain ⟨h0, hlast, hstep⟩ := hmid (by norm_num)
  exact ⟨hlen, h0, by simpa using hlast, by simpa using hstep 1 (by norm_num),
    (C6_price_grid 10 4 1).2.2 rfl⟩

@[simp] theorem cost_nil_left (qs : List ℤ) : cost [] qs = 0 := by
  simp [cost]

@[simp] theorem cost_nil_right (prices : List ℚ) : cost prices [] = 0 := by
  simp [cost]

@[simp] theorem cost_cons (p : ℚ) (ps : List ℚ) (q : ℤ) (qs : List ℤ) :
    cost (p :: ps) (q :: qs) = p * (q : ℚ) + cost ps qs := by
  simp [cost]

theorem foldl_min_le_init (l : List ℚ) (a : ℚ) : l.foldl min a ≤ a := by
  induction l generalizing a with
  | nil => simp
  | cons b bs ih =>
    calc (b :: bs).foldl min a = bs.foldl min (min a b) := by simp
    _ ≤ min a b := ih (min a b)
    _ ≤ a := min_le_left a b

theorem foldl_min_le_mem (l : List ℚ) (a x : ℚ) (hx : x ∈ l) : l.foldl min a ≤ x := by
  induction l generalizing a with
  | nil => cases hx
  | cons b bs ih =>
    rcases List.mem_cons.mp hx with rfl | hx
    · calc (x :: bs).foldl min a = bs.foldl min (min a x) := by simp
      _ ≤ min a x := foldl_min_le_init bs (min a x)
      _ ≤ x := min_le_right a x
    · simpa using ih (min a b) hx

theorem foldl_min_mem (l : List ℚ) (a : ℚ) : l.foldl min a = a ∨ l.foldl min a ∈ l := by
  induction l generalizing a with
  | nil => simp
  | cons b bs ih =>
    rcases ih (min a b) with h | h
    · rcases le_total a b with hab | hab
      · simp only [List.foldl_cons]
        rw [h, min_eq_left hab]
        exact Or.inl rfl
      · simp only [List.foldl_cons]
        rw [h, min_eq_right hab]
        exact Or.inr (List.mem_cons_self b bs)
    · simp only [List.foldl_cons]
      exact Or.inr (List.mem_cons_of_mem b h)

theorem minOf_mem (l : List ℚ) (hne : l ≠ []) : minOf l ∈ l := by
  cases l with
  | nil => exact absurd rfl hne
  | cons p ps =>
    rcases foldl_min_mem ps p with h | h
    · simpa [minOf] using Or.inl h
    · simpa [minOf] using Or.inr h

theorem minOf_le (l : List ℚ) (x : ℚ) (hx : x ∈ l) : minOf l ≤ x := by
  cases l with
  | nil => cases hx
  | cons p ps =>
    rcases List.mem_cons.mp hx with rfl | hx
    · simpa [minOf] using foldl_min_le_init ps x
    · simpa [minOf] using foldl_min_le_mem ps p x hx

theorem findFirst_none_iff (r : ℚ) (l : List ℚ) :
    findFirst r l = none ↔ ∀ p ∈ l, r < p := by
  induction l with
  | nil => simp [findFirst]
  | cons p ps ih =>
    by_cases hp : p ≤ r
    · simp only [findFirst, if_pos hp]
      constructor
      · intro h
        cases h
      · intro h
        exact absurd (h p (List.mem_cons_self p ps)) (not_lt.mpr hp)
    · simp only [findFirst, if_neg hp, Option.map_eq_none', ih, List.mem_cons]
      constructor
      · rintro h x (rfl | hx)
        · exact not_le.mp hp
        · exact h x hx
      · intro h x hx
        exact h x (Or.inr hx)

theorem findFirst_some_spec (r : ℚ) (l : List ℚ) (i : ℕ) (p : ℚ)
    (h : findFirst r l = some (i, p)) :
    i < l.length ∧ l.getD i 0 = p ∧ p ≤ r ∧ p ∈ l := by
  induction l generalizing i with
  | nil => simp [findFirst] at h
  | cons a as ih =>
    by_cases ha : a ≤ r
    · simp only [findFirst, if_pos ha, Option.some.injEq, Prod.mk.injEq] at h
      obtain ⟨rfl, rfl⟩ := h
      exact ⟨by simp, rfl, ha, List.mem_cons_self a as⟩
    · simp only [findFirst, if_neg ha, Option.map_eq_some'] at h
      obtain ⟨⟨j, q⟩, hj, hq⟩ := h
      simp only [Prod.mk.injEq] at hq
      obtain ⟨hji, rfl⟩ := hq
      subst hji
      obtain ⟨h1, h2, h3, h4⟩ := ih j hj
      exact ⟨by simpa using h1, by simpa using h2, h3, List.mem_cons_of_mem a h4⟩

theorem cost_set (prices : List ℚ) (qs : List ℤ) (i : ℕ) (hi : i < prices.length)
    (hiq : i < qs.length) :
    cost prices (qs.set i (qs.getD i 0 + 1)) = cost prices qs + prices.getD i 0 := by
  induction prices generalizing qs i with
  | nil => simp at hi
  | cons p ps ih =>
    cases qs with
    | nil => simp at hiq
    | cons q qq =>
      cases i with
      | zero =>
        simp only [List.getD_cons_zero, List.set_cons_zero, cost_cons, List.getD_cons_zero]
        push_cast
        ring
      | succ j =>
        simp only [List.getD_cons_succ, List.set_cons_succ, cost_cons]
        rw [ih qq j (by simpa using hi) (by simpa using hiq)]
        ring

theorem distLoopF_length (fuel : ℕ) (prices : List ℚ) (qs : List ℤ) (r : ℚ) :
    (distLoopF fuel prices qs r).1.length = qs.length := by
  induction fuel generalizing qs r with
  | zero => rfl
  | succ fuel ih =>
    by_cases hc : minOf prices < r
    · cases hf : findFirst r prices with
      | none => simp [distLoopF, hc, hf]
      | some ip => simp [distLoopF, hc, hf, ih]
    · simp [distLoopF, hc]

theorem distLoopF_one_le (fuel : ℕ) (prices : List ℚ) (qs : List ℤ) (r : ℚ)
    (h : ∀ q ∈ qs, 1 ≤ q) : ∀ q ∈ (distLoopF fuel prices qs r).1, 1 ≤ q := by
  induction fuel generalizing qs r with
  | zero => exact h
  | succ fuel ih =>
    by_cases hc : minOf prices < r
    · cases hf : findFirst r prices with
      | none => simpa [distLoopF, hc, hf] using h
      | some ip =>
        simp only [distLoopF, if_pos hc, hf]
        apply ih
        intro x hx
        rcases List.mem_or_eq_of_mem_set hx with hx | rfl
        · exact h x hx
        · by_cases hib : ip.1 < qs.length
          · have := h (qs.getD ip.1 0) (by
              rw [List.getD_eq_getElem qs 0 hib]
              exact List.getElem_mem hib)
            omega
          · rw [List.getD_eq_default qs 0 (le_of_not_lt hib)]
            norm_num
    · simpa [distLoopF, hc] using h

theorem distLoopF_conserve (fuel : ℕ) (prices : List ℚ) (qs : List ℤ) (r : ℚ)
    (hlen : qs.length = prices.length) :
    cost prices (distLoopF fuel prices qs r).1 + (distLoopF fuel prices qs r).2 =
      cost prices qs + r := by
  induction fuel generalizing qs r with
  | zero => rfl
  | succ fuel ih =>
    by_cases hc : minOf prices < r
    · cases hf : findFirst r prices with
      | none => simp [distLoopF, hc, hf]
      | some ip =>
        simp only [distLoopF, if_pos hc, hf]
        obtain ⟨hi, hgd, hpr, hmem⟩ := findFirst_some_spec r prices ip.1 ip.2 hf
        rw [ih _ _ (by simp [hlen])]
        rw [cost_set prices qs ip.1 hi (by omega), hgd]
        ring
    · simp [distLoopF, hc]

theorem distLoopF_nonneg (fuel : ℕ) (prices : List ℚ) (qs : List ℤ) (r : ℚ)
    (hr : 0 ≤ r) : 0 ≤ (distLoopF fuel prices qs r).2 := by
  induction fuel generalizing qs r with
  | zero => exact hr
  | succ fuel ih =>
    by_cases hc : minOf prices < r
    · cases hf : findFirst r prices with
      | none => simpa [distLoopF, hc, hf] using hr
      | some ip =>
        simp only [distLoopF, if_pos hc, hf]
        obtain ⟨_, _, hpr, _⟩ := findFirst_some_spec r prices ip.1 ip.2 hf
        exact ih _ _ (by linarith)
    · simpa [distLoopF, hc] using hr

theorem fuel_step (fuel : ℕ) (r p m : ℚ) (hm : 0 < m) (hple : m ≤ p)
    (hfuel : (⌈r / m⌉).toNat ≤ fuel + 1) : (⌈(r - p) / m⌉).toNat ≤ fuel := by
  have hd : (r - p) / m ≤ r / m - 1 := by
    rw [sub_div]
    have h1 : (1 : ℚ) ≤ p / m := (one_le_div hm).mpr hple
    linarith
  have hceil : ⌈(r - p) / m⌉ ≤ ⌈r / m⌉ - 1 := by
    calc ⌈(r - p) / m⌉ ≤ ⌈r / m - 1⌉ := Int.ceil_mono hd
    _ = ⌈r / m⌉ - 1 := by
      rw [show (1 : ℚ) = ((1 : ℤ) : ℚ) by norm_num, Int.ceil_sub_int]
  omega

theorem fuel_zero_le (r m : ℚ) (hm : 0 < m) (hfuel : (⌈r / m⌉).toNat ≤ 0) : r ≤ 0 := by
  have h0 : ⌈r / m⌉ ≤ 0 := by omega
  have h1 : r / m ≤ ((0 : ℤ) : ℚ) := Int.ceil_le.mp h0
  push_cast at h1
  by_contra hr
  push_neg at hr
  have := div_pos hr hm
  linarith

theorem minOf_pos_ne_nil (prices : List ℚ) (hm : 0 < minOf prices) : prices ≠ [] := by
  intro h
  rw [h] at hm
  simp [minOf] at hm

theorem distLoopF_exit (fuel : ℕ) (prices : List ℚ) (qs : List ℤ) (r : ℚ)
    (hm : 0 < minOf prices) (hfuel : (⌈r / minOf prices⌉).toNat ≤ fuel) :
    (distLoopF fuel prices qs r).2 ≤ minOf prices := by
  induction fuel generalizing qs r with
  | zero => exact le_trans (fuel_zero_le r (minOf prices) hm hfuel) (le_of_lt hm)
  | succ fuel ih =>
    by_cases hc : minOf prices < r
    · have hmem := minOf_mem prices (minOf_pos_ne_nil prices hm)
      cases hf : findFirst r prices with
      | none =>
        rw [findFirst_none_iff] at hf
        exact absurd (hf _ hmem) (not_lt.mpr (le_of_lt hc))
      | some ip =>
        simp only [distLoopF, if_pos hc, hf]
        obtain ⟨hi, hgd, hpr, hpm⟩ := findFirst_some_spec r prices ip.1 ip.2 hf
        exact ih _ _ (fuel_step fuel r ip.2 (minOf prices) hm (minOf_le prices ip.2 hpm) hfuel)
    · simp only [distLoopF, if_neg hc]
      exact le_of_not_lt hc

theorem distLoopF_stable (fuel : ℕ) (prices : List ℚ) (qs : List ℤ) (r : ℚ)
    (hm : 0 < minOf prices) (hfuel : (⌈r / minOf prices⌉).toNat ≤ fuel) :
    distLoopF (fuel + 1) prices qs r = distLoopF fuel prices qs r := by
  induction fuel generalizing qs r with
  | zero =>
    have hr : r ≤ 0 := fuel_zero_le r (minOf prices) hm hfuel
    have : ¬ minOf prices < r := not_lt.mpr (le_trans hr (le_of_lt hm))
    simp [distLoopF, this]
  | succ fuel ih =>
    by_cases hc : minOf prices < r
    · have hmem := minOf_mem prices (minOf_pos_ne_nil prices hm)
      cases hf : findFirst r prices with
      | none =>
        rw [findFirst_none_iff] at hf
        exact absurd (hf _ hmem) (not_lt.mpr (le_of_lt hc))
      | some ip =>
        obtain ⟨hi, hgd, hpr, hpm⟩ := findFirst_some_spec r prices ip.1 ip.2 hf
        have hstep := fuel_step fuel r ip.2 (minOf prices) hm (minOf_le prices ip.2 hpm) hfuel
        calc distLoopF (fuel + 1 + 1) prices qs r
            = distLoopF (fuel + 1) prices (qs.set ip.1 (qs.getD ip.1 0 + 1)) (r - ip.2) := by
              simp only [distLoopF, if_pos hc, hf]
        _ = distLoopF fuel prices (qs.set ip.1 (qs.getD ip.1 0 + 1)) (r - ip.2) :=
              ih _ _ hstep
        _ = distLoopF (fuel + 1) prices qs r := by
              simp only [distLoopF, if_pos hc, hf]
    · simp [distLoopF, hc]

theorem distLoopF_stable_of_le (f1 f2 : ℕ) (prices : List ℚ) (qs : List ℤ) (r : ℚ)
    (hm : 0 < minOf prices) (h1 : (⌈r / minOf prices⌉).toNat ≤ f1) (h12 : f1 ≤ f2) :
    distLoopF f2 prices qs r = distLoopF f1 prices qs r := by
  obtain ⟨k, rfl⟩ := Nat.exists_eq_add_of_le h12
  clear h12
  induction k with
  | zero => rfl
  | succ k ih =>
    rw [show f1 + (k + 1) = f1 + k + 1 from rfl,
      distLoopF_stable (f1 + k) prices qs r hm (by omega), ih]

/-- C4: when `min(prices)` is positive, the leftover-fund loop
terminates — run on the fuel `fuelFor` it reaches its exit condition,
and any larger fuel gives the same result — with `remaining ≤
min(prices)` on exit; and each pass decrements `remaining` by a price
that is at least `min(prices)`. -/
theorem C4_leftover_loop_termination (prices : List ℚ) (qs : List ℤ) (r : ℚ)
    (hm : 0 < minOf prices) :
    (distribute prices qs r).2 ≤ minOf prices ∧
    (∀ i p, minOf prices < r → findFirst r prices = some (i, p) →
      minOf prices ≤ p ∧ r - p ≤ r - minOf prices) ∧
    (∀ fuel, fuelFor prices r ≤ fuel →
      distLoopF fuel prices qs r = distribute prices qs r) := by
  refine ⟨?_, ?_, ?_⟩
  · unfold distribute fuelFor
    rw [if_pos hm]
    exact distLoopF_exit _ prices qs r hm le_rfl
  · intro i p _ hf
    obtain ⟨_, _, _, hpm⟩ := findFirst_some_spec r prices i p hf
    have := minOf_le prices p hpm
    exact ⟨this, by linarith⟩
  · intro fuel hfuel
    unfold fuelFor at hfuel
    rw [if_pos hm] at hfuel
    unfold distribute fuelFor
    rw [if_pos hm]
    exact distLoopF_stable_of_le _ fuel prices qs r hm le_rfl hfuel

/-- Witness for C4 on the two-price grid `[4, 3]`. -/
theorem C4_leftover_loop_termination_witness :
    (distribute [(4 : ℚ), 3] [1, 1] 10).2 ≤ minOf [(4 : ℚ), 3] := by
  exact (C4_leftover_loop_termination [(4 : ℚ), 3] [1, 1] 10 (by decide)).1

/-- C9: the leftover loop preserves `remaining = funds - total cost` and
only increments affordable grids, so entered with total cost ≤ funds it
exits with total cost ≤ funds. -/
theorem C9_loop_budget_invariant (prices : List ℚ) (qs : List ℤ) (funds : ℚ)
    (hlen : qs.length = prices.length) (hc : cost prices qs ≤ funds) :
    cost prices (distribute prices qs (funds - cost prices qs)).1 ≤ funds ∧
    (distribute prices qs (funds - cost prices qs)).2 =
      funds - cost prices (distribute prices qs (funds - cost prices qs)).1 := by
  have hcons := distLoopF_conserve (fuelFor prices (funds - cost prices qs)) prices qs
    (funds - cost prices qs) hlen
  have hnn := distLoopF_nonneg (fuelFor prices (funds - cost prices qs)) prices qs
    (funds - cost prices qs) (by linarith)
  unfold distribute
  constructor
  · linarith
  · linarith

/-- Witness for C9 on the grid `[4, 3]` with quantities `[1, 1]` and a
budget of 10. -/
theorem C9_loop_budget_invariant_witness :
    cost [(4 : ℚ), 3]
        (distribute [(4 : ℚ), 3] [1, 1] (10 - cost [(4 : ℚ), 3] [1, 1])).1 ≤ 10 := by
  exact (C9_loop_budget_invariant [(4 : ℚ), 3] [1, 1] 10 (by decide) (by norm_num)).1

theorem exponential_allocation_length (prices : List ℚ) :
    (exponential_allocation prices).length = prices.length := by
  unfold exponential_allocation
  split_ifs <;> simp

theorem calculate_weights_length (prices : List ℚ) (method M : ℤ)
    (hmethod : method = 0 ∨ method = 1 ∨ method = 2) :
    (calculate_weights prices method M).length = prices.length := by
  unfold calculate_weights
  split_ifs with h1 h2 h3 h4 <;>
    simp_all [sharesFromWeightsQ, sharesFromWeightsR, equal_amount_allocation,
      linear_weighted_allocation, exponential_allocation_length]

theorem calculate_weights_one_le (prices : List ℚ) (method M : ℤ) (hM : 1 ≤ M) :
    ∀ q ∈ calculate_weights prices method M, 1 ≤ q := by
  unfold calculate_weights
  split_ifs with h1 h2 h3 h4 <;> intro q hq
  · simp only [List.mem_singleton] at hq
    omega
  · simp only [sharesFromWeightsQ, List.mem_map] at hq
    obtain ⟨w, _, rfl⟩ := hq
    exact le_max_left 1 _
  · simp only [sharesFromWeightsR, List.mem_map] at hq
    obtain ⟨w, _, rfl⟩ := hq
    exact le_max_left 1 _
  · simp only [sharesFromWeightsQ, List.mem_map] at hq
    obtain ⟨w, _, rfl⟩ := hq
    exact le_max_left 1 _
  · simp at hq

theorem initial_quantities_length (funds : ℚ) (n : ℤ) (prices : List ℚ) (method M : ℤ)
    (hmethod : method = 0 ∨ method = 1 ∨ method = 2) :
    (initial_quantities funds n prices method M).length = prices.length := by
  unfold initial_quantities
  split_ifs with h0
  · simp
  · exact calculate_weights_length prices method M hmethod

theorem initial_quantities_one_le (funds : ℚ) (n : ℤ) (prices : List ℚ) (method M : ℤ)
    (hM : 1 ≤ M) : ∀ q ∈ initial_quantities funds n prices method M, 1 ≤ q := by
  unfold initial_quantities
  split_ifs with h0 <;> intro q hq
  · simp only [List.mem_map] at hq
    obtain ⟨p, _, rfl⟩ := hq
    exact le_max_left 1 _
  · exact calculate_weights_one_le prices method M hM q hq

theorem one_le_pyInt (q : ℚ) (h : 1 ≤ q) : 1 ≤ pyInt q := by
  unfold pyInt
  rw [if_pos (by linarith)]
  exact Int.le_floor.mpr (by exact_mod_cast h)

theorem calc_core_spec (f i s : ℚ) (n a : ℤ)
    (hv : validate_inputs f i s n a = .ok ()) :
    (calc_core f i s n a).1.length = (min n (pyInt (f / s))).toNat ∧
    (∀ pq ∈ (calc_core f i s n a).1, (1 : ℤ) ≤ pq.2) ∧
    ((calc_core f i s n a).2 = some CalcWarning.tooManySingleShares ↔
      (if pyInt (f / s) < n then pyInt (f / s) else n) / 2 <
        (((calc_core f i s n a).1.filter (fun pq => pq.2 = 1)).length : ℤ)) := by
  obtain ⟨hf, hi, hs, hn, ha, hsi, hif, hn100⟩ := (validate_inputs_ok_iff f i s n a).mp hv
  simp only [calc_core]
  set m := pyInt (f / s) with hm
  set nn := if m < n then m else n with hnn
  set prices := linspace i s nn.toNat with hprices
  set qs0 := initial_quantities f nn prices a m with hqs0
  set qs1 := if f < cost prices qs0 then
      qs0.map (fun q : ℤ => max 1 (pyInt ((q : ℚ) * (f / cost prices qs0)))) else qs0 with hqs1
  set qs2 := (distribute prices qs1 (f - cost prices qs1)).1 with hqs2
  set plan := (prices.zip qs2).map (fun pq => (round2 pq.1, pq.2)) with hplan
  have hm1 : 1 ≤ m := one_le_pyInt _ ((one_le_div hs).mpr (le_trans (le_of_lt hsi) hif))
  have hlenp : prices.length = nn.toNat := by
    rw [hprices]
    exact linspace_length i s nn.toNat
  have hlq0 : qs0.length = prices.length := by
    rw [hqs0]
    exact initial_quantities_length f nn prices a m ha
  have hlq1 : qs1.length = prices.length := by
    rw [hqs1]
    split_ifs <;> simp [hlq0]
  have hlq2 : qs2.length = prices.length := by
    rw [hqs2]
    unfold distribute
    rw [distLoopF_length]
    exact hlq1
  have h1q0 : ∀ q ∈ qs0, 1 ≤ q := by
    rw [hqs0]
    exact initial_quantities_one_le f nn prices a m hm1
  have h1q1 : ∀ q ∈ qs1, 1 ≤ q := by
    rw [hqs1]
    split_ifs
    · intro q hq
      simp only [List.mem_map] at hq
      obtain ⟨x, _, rfl⟩ := hq
      exact le_max_left 1 _
    · exact h1q0
  have h1q2 : ∀ q ∈ qs2, 1 ≤ q := by
    rw [hqs2]
    unfold distribute
    exact distLoopF_one_le _ _ _ _ h1q1
  refine ⟨?_, ?_, ?_⟩
  · have hmin : nn = min n m := by
      rw [hnn]
      split_ifs <;> omega
    simp only [hplan, List.length_map, List.length_zip, hlq2, hlenp, min_self, hmin]
  · intro pq hpq
    simp only [hplan, List.mem_map] at hpq
    obtain ⟨⟨p, q⟩, hmem, rfl⟩ := hpq
    exact h1q2 q (List.of_mem_zip hmem).2
  · split_ifs with hw
    · exact iff_of_true rfl hw
    · exact iff_of_false (by simp) hw

theorem pyInt_eq_floor (q : ℚ) (h : 0 ≤ q) : pyInt q = ⌊q⌋ := if_pos h

/-- Counterexample to C3 as stated: in the `calculations.py` revision the
EQUAL (method 0) branch of `calculate_buy_plan` computes the
pre-reconciliation quantities from an equal dollar amount per grid, not
from weights.  At the valid request `funds = 1000, initial = 10,
stop = 5, grids = 2` (`max_shares = 200`, no downgrade, prices
`[10, 5]`) the quantities are `[50, 100]`, not the uniform
`max(1, floor(max_shares / n)) = 100` on every grid. -/
theorem C3_counterexample :
    validate_inputs 1000 10 5 2 0 = .ok () ∧
    pyInt ((1000 : ℚ) / 5) = 200 ∧
    linspace 10 5 2 = [10, 5] ∧
    initial_quantities 1000 2 [10, 5] 0 200 = [50, 100] ∧
    initial_quantities 1000 2 [10, 5] 0 200 ≠
      List.replicate 2 (max 1 (pyInt ((200 : ℚ) * (1 / 2)))) := by
  refine ⟨by rfl, by norm_num [pyInt], by norm_num [linspace, List.range_succ], ?_, ?_⟩
  · norm_num [initial_quantities, pyInt]
  · norm_num [initial_quantities, pyInt, List.replicate]

/-- C3 amended: in the `TradingLogic` revision (and in
`calculate_weights` of both revisions) the EQUAL method with `n ≥ 2`
grids gives every grid weight `1.0`, so before budget reconciliation
every grid receives the same share count `max(1, floor(max_shares / n))`;
the `calculations.py` `calculate_buy_plan` method-0 branch instead uses a
uniform dollar split (see the counterexample). -/
theorem C3_equal_weights_uniform_shares (prices : List ℚ) (M : ℤ)
    (h2 : 2 ≤ prices.length) (hM : 0 ≤ M) :
    equal_amount_allocation prices.length = List.replicate prices.length 1 ∧
    calculate_weights prices 0 M =
      List.replicate prices.length (max 1 ⌊(M : ℚ) / (prices.length : ℚ)⌋) := by
  refine ⟨rfl, ?_⟩
  unfold calculate_weights
  rw [if_neg (by omega), if_pos rfl]
  unfold sharesFromWeightsQ equal_amount_allocation
  have hsum : (List.replicate prices.length (1 : ℚ)).sum = (prices.length : ℚ) := by
    simp [List.sum_replicate]
  rw [List.map_replicate, hsum]
  congr 1
  have hpos : (0 : ℚ) < (prices.length : ℚ) := by
    have : (2 : ℚ) ≤ (prices.length : ℚ) := by exact_mod_cast h2
    linarith
  rw [mul_one_div, pyInt_eq_floor _ (div_nonneg (by exact_mod_cast hM) (le_of_lt hpos))]

/-- Witness for the amended C3 at `prices = [10, 5]`,
`max_shares = 200`. -/
theorem C3_equal_weights_uniform_shares_witness :
    equal_amount_allocation ([(10 : ℚ), 5]).length =
      List.replicate ([(10 : ℚ), 5]).length 1 ∧
    calculate_weights [(10 : ℚ), 5] 0 200 =
      List.replicate ([(10 : ℚ), 5]).length
        (max 1 ⌊((200 : ℤ) : ℚ) / (([(10 : ℚ), 5]).length : ℚ)⌋) :=
  C3_equal_weights_uniform_shares [(10 : ℚ), 5] 200 (by decide) (by decide)

/-- Counterexample to C5 as stated: at `funds = 100, initial = 40,
stop = 30, grids = 5` the grid count is downgraded
(`max_shares = 3 < 5`), yet the entire returned result — warning channel
included — equals the result of requesting 3 grids outright, where no
downgrade happens.  The downgrade is only logged; no `ComputationWarning`
in the returned result reflects it. -/
theorem C5_counterexample :
    pyInt ((100 : ℚ) / 30) = 3 ∧ (3 : ℤ) < 5 ∧
    calc_calculate_buy_plan 100 40 30 5 0 = calc_calculate_buy_plan 100 40 30 3 0 := by
  have hm : pyInt ((100 : ℚ) / 30) = 3 := by norm_num [pyInt]
  refine ⟨hm, by norm_num, ?_⟩
  unfold calc_calculate_buy_plan
  rw [show validate_inputs 100 40 30 5 0 = .ok () from rfl,
    show validate_inputs 100 40 30 3 0 = .ok () from rfl]
  unfold calc_core
  rw [hm]
  norm_num

/-- C5 amended: on a valid request the downgrade does happen — the plan
has `min(num_grids, max_shares)` entries — but the result's warning
channel does not reflect it: the returned warning is
`tooManySingleShares` exactly when the single-share count of the final
plan exceeds `num_grids // 2`, whatever the downgrade did, and no other
warning value exists. -/
theorem C5_downgrade_not_in_warning_channel (f i s : ℚ) (n a : ℤ)
    (hv : validate_inputs f i s n a = .ok ()) :
    ∃ plan warn, calc_calculate_buy_plan f i s n a = .ok (plan, warn) ∧
      plan.length = (min n ⌊f / s⌋).toNat ∧
      (warn = some CalcWarning.tooManySingleShares ↔
        (if ⌊f / s⌋ < n then ⌊f / s⌋ else n) / 2 <
          ((plan.filter (fun pq => pq.2 = 1)).length : ℤ)) := by
  obtain ⟨hf, hi, hs, hsl, ha, hsi, hif, hn100⟩ := (validate_inputs_ok_iff f i s n a).mp hv
  obtain ⟨hlen, _, hwarn⟩ := calc_core_spec f i s n a hv
  have hfl : pyInt (f / s) = ⌊f / s⌋ := pyInt_eq_floor (f / s) (le_of_lt (div_pos hf hs))
  refine ⟨(calc_core f i s n a).1, (calc_core f i s n a).2, ?_, ?_, ?_⟩
  · unfold calc_calculate_buy_plan
    rw [hv]
  · rw [hlen, hfl]
  · rw [← hfl]
    exact hwarn

/-- Witness for the amended C5 at the downgrading input
`(100, 40, 30, 5, 0)`. -/
theorem C5_downgrade_not_in_warning_channel_witness :
    ∃ plan warn, calc_calculate_buy_plan 100 40 30 5 0 = .ok (plan, warn) ∧
      plan.length = (min 5 ⌊(100 : ℚ) / 30⌋).toNat ∧
      (warn = some CalcWarning.tooManySingleShares ↔
        (if ⌊(100 : ℚ) / 30⌋ < 5 then ⌊(100 : ℚ) / 30⌋ else 5) / 2 <
          ((plan.filter (fun pq => pq.2 = 1)).length : ℤ)) :=
  C5_downgrade_not_in_warning_channel 100 40 30 5 0 (by rfl)

theorem ensure_default_values_funds_zero (cfg : TradingConfig) (i s : ℚ) (n a : ℤ) :
    ensure_default_values cfg ⟨0, i, s, n, a⟩ =
      ensure_default_values cfg ⟨cfg.default_funds, i, s, n, a⟩ := by
  unfold ensure_default_values
  simp

theorem ensure_default_values_initial_zero (cfg : TradingConfig) (f s : ℚ) (n a : ℤ) :
    ensure_default_values cfg ⟨f, 0, s, n, a⟩ =
      ensure_default_values cfg ⟨f, cfg.default_initial_price, s, n, a⟩ := by
  unfold ensure_default_values
  simp

/-- Counterexample to C10 as stated: a zero `num_grids` is not replaced
by the configured default — the pre-validation grid-count guard raises
`TradingLogicError` first. -/
theorem C10_counterexample :
    TL_calculate_buy_plan defaultTradingConfig 1000 50 30 0 2 =
      .error .gridCountOutOfRange := by
  rfl

/-- C10 amended: `TradingLogic.calculate_buy_plan` replaces a zero
`funds`, `initial_price`, `stop_loss_price` or `allocation_method` with
the configured default before validation — in particular a call with
`funds = 0` or `initial_price = 0` behaves exactly like a call with the
default value, and reports no validation error that the defaulted value
does not itself trigger — but a zero `num_grids` is rejected by the
`max_num_grids` guard before the defaults are applied. -/
theorem C10_zero_inputs_defaulted (cfg : TradingConfig) (f i s : ℚ) (n a : ℤ) :
    (TL_calculate_buy_plan cfg 0 i s n a =
      TL_calculate_buy_plan cfg cfg.default_funds i s n a) ∧
    (TL_calculate_buy_plan cfg f 0 s n a =
      TL_calculate_buy_plan cfg f cfg.default_initial_price s n a) ∧
    TL_calculate_buy_plan cfg f i s 0 a = .error .gridCountOutOfRange := by
  refine ⟨?_, ?_, ?_⟩
  · by_cases hg : n ≤ 0 ∨ cfg.max_num_grids < n
    · simp [TL_calculate_buy_plan, hg]
    · simp only [TL_calculate_buy_plan, if_neg hg]
      rw [ensure_default_values_funds_zero]
  · by_cases hg : n ≤ 0 ∨ cfg.max_num_grids < n
    · simp [TL_calculate_buy_plan, hg]
    · simp only [TL_calculate_buy_plan, if_neg hg]
      rw [ensure_default_values_initial_zero]
  · simp [TL_calculate_buy_plan]

theorem TL_calculate_buy_plan_ok (cfg : TradingConfig) (f i s : ℚ) (n a : ℤ)
    (hn : 0 < n) (hmax : n ≤ cfg.max_num_grids) :
    ∃ r, TL_calculate_buy_plan cfg f i s n a = .ok r := by
  simp only [TL_calculate_buy_plan]
  rw [if_neg (by omega)]
  cases hv : validate_inputs
      (ensure_default_values cfg ⟨f, i, s, n, a⟩).funds
      (ensure_default_values cfg ⟨f, i, s, n, a⟩).initial_price
      (ensure_default_values cfg ⟨f, i, s, n, a⟩).stop_loss_price
      (ensure_default_values cfg ⟨f, i, s, n, a⟩).num_grids
      (ensure_default_values cfg ⟨f, i, s, n, a⟩).allocation_method with
  | error e => exact ⟨_, rfl⟩
  | ok u =>
    cases u
    exact ⟨_, rfl⟩

theorem TL_calculate_with_reserve_ok (cfg : TradingConfig) (v : InputValues) (pct : ℤ)
    (r : List (ℚ × ℤ) × TLMessage × Option TLSummary) (hip : 0 < v.initial_price)
    (h : TL_calculate_buy_plan cfg (v.funds - v.funds * ((pct : ℚ) / 100)) v.initial_price
      v.stop_loss_price v.num_grids v.allocation_method = .ok r) :
    TL_calculate_with_reserve cfg v pct =
      .ok (r, v.funds * ((pct : ℚ) / 100),
        { v with funds := v.funds - v.funds * ((pct : ℚ) / 100) }) := by
  simp only [TL_calculate_with_reserve]
  rw [if_neg (not_le.mpr hip), h]

/-- Counterexample to C8 as stated: `calculate_with_reserve` does not
leave the caller's request unchanged — after the call with
`funds = 100` and a 50% reserve, the caller's dictionary holds
`funds = 50`. -/
theorem C8_counterexample :
    cwrPostFunds (TL_calculate_with_reserve defaultTradingConfig ⟨100, 4, 3, 2, 2⟩ 50) =
      some 50 ∧ (50 : ℚ) ≠ 100 := by
  obtain ⟨r, hr⟩ := TL_calculate_buy_plan_ok defaultTradingConfig
    ((100 : ℚ) - 100 * ((50 : ℚ) / 100)) 4 3 2 2 (by norm_num) (by norm_num [defaultTradingConfig])
  have h := TL_calculate_with_reserve_ok defaultTradingConfig ⟨100, 4, 3, 2, 2⟩ 50 r
    (by norm_num) (by exact hr)
  rw [h]
  norm_num [cwrPostFunds]

/-- C8 amended: `calculate_with_reserve` does compute
`reserved = funds * pct / 100` and delegates to `calculate_buy_plan`
with the reduced funds, but it mutates the caller's request: on return
the request's `funds` holds the reduced amount, which differs from the
original whenever `pct ≠ 0` and `funds ≠ 0`. -/
theorem C8_reserve_delegates_but_mutates (cfg : TradingConfig) (v : InputValues)
    (pct : ℤ) (res : List (ℚ × ℤ) × TLMessage × Option TLSummary) (reserved : ℚ)
    (post : InputValues) (hip : 0 < v.initial_price)
    (h : TL_calculate_with_reserve cfg v pct = .ok (res, reserved, post)) :
    reserved = v.funds * ((pct : ℚ) / 100) ∧
    TL_calculate_buy_plan cfg (v.funds - reserved) v.initial_price v.stop_loss_price
      v.num_grids v.allocation_method = .ok res ∧
    post = { v with funds := v.funds - reserved } ∧
    (pct ≠ 0 → v.funds ≠ 0 → post.funds ≠ v.funds) := by
  simp only [TL_calculate_with_reserve] at h
  rw [if_neg (not_le.mpr hip)] at h
  cases htl : TL_calculate_buy_plan cfg (v.funds - v.funds * ((pct : ℚ) / 100))
      v.initial_price v.stop_loss_price v.num_grids v.allocation_method with
  | error e =>
    rw [htl] at h
    cases h
  | ok r =>
    rw [htl] at h
    simp only [Except.ok.injEq, Prod.mk.injEq] at h
    obtain ⟨hr, hres, hpost⟩ := h
    subst hres hpost hr
    refine ⟨rfl, htl, rfl, ?_⟩
    intro hp hf
    simp only [ne_eq, sub_eq_self]
    exact mul_ne_zero hf (div_ne_zero (Int.cast_ne_zero.mpr hp) (by norm_num))

/-- Witness for the amended C8 at `funds = 100`, 50% reserve. -/
theorem C8_reserve_delegates_but_mutates_witness :
    ∃ res reserved post,
      TL_calculate_with_reserve defaultTradingConfig ⟨100, 4, 3, 2, 2⟩ 50 =
        .ok (res, reserved, post) ∧
      reserved = (100 : ℚ) * ((50 : ℚ) / 100) ∧
      post.funds ≠ (100 : ℚ) := by
  obtain ⟨r, hr⟩ := TL_calculate_buy_plan_ok defaultTradingConfig
    ((100 : ℚ) - 100 * ((50 : ℚ) / 100)) 4 3 2 2 (by norm_num) (by norm_num [defaultTradingConfig])
  have hcwr := TL_calculate_with_reserve_ok defaultTradingConfig ⟨100, 4, 3, 2, 2⟩ 50 r
    (by norm_num) (by exact hr)
  obtain ⟨h1, _, _, h4⟩ := C8_reserve_delegates_but_mutates defaultTradingConfig
    ⟨100, 4, 3, 2, 2⟩ 50 r ((100 : ℚ) * ((50 : ℚ) / 100))
    ⟨(100 : ℚ) - 100 * ((50 : ℚ) / 100), 4, 3, 2, 2⟩ (by norm_num) (by exact hcwr)
  exact ⟨r, (100 : ℚ) * ((50 : ℚ) / 100),
    ⟨(100 : ℚ) - 100 * ((50 : ℚ) / 100), 4, 3, 2, 2⟩, by exact hcwr, h1,
    h4 (by norm_num) (by norm_num)⟩

/-- Witness for C2: with 200 grids every earlier rule holds, rule 8
(index 7) fails, and the error names it; a fully valid input passes. -/
theorem C2_validate_inputs_first_violation_witness :
    validate_inputs 50000 100 90 200 1 = .error (errOf 7) ∧
    validate_inputs 50000 100 90 10 1 = .ok () := by
  constructor
  · exact ((C2_validate_inputs_first_violation 50000 100 90 200 1).2 7 (by omega)).mpr
      ⟨by norm_num [rule], by intro j hj; interval_cases j <;> norm_num [rule]⟩
  · exact (C2_validate_inputs_first_violation 50000 100 90 10 1).1.mpr
      (by intro k hk; interval_cases k <;> norm_num [rule])

/-- Counterexample to C7 as stated: on the instruction `AAPL 300-200` a
symbol (`AAPL`) and two prices (300, 200) are extracted, yet
`TradingLogic.parse_trading_instruction` fails — with the invalid-range
error, not for a missing symbol or missing price. -/
theorem C7_counterexample :
    TL_parse_trading_instruction
      ['A', 'A', 'P', 'L', ' ', '3', '0', '0', '-', '2', '0', '0'] none =
      .error .invalidRange ∧
    extractSymbol
      (['A', 'A', 'P', 'L', ' ', '3', '0', '0', '-', '2', '0', '0'].map Char.toUpper) =
      some ['A', 'A', 'P', 'L'] ∧
    extractPriceRange
      (['A', 'A', 'P', 'L', ' ', '3', '0', '0', '-', '2', '0', '0'].map Char.toUpper) =
      some (300, 200) := by
  refine ⟨by decide, by decide, by decide⟩

/-- C7 amended: the `TradingLogic` parser succeeds iff a symbol is
extracted, a price is extracted, and the extracted range is ordered
(`lower ≤ higher`); it fails otherwise.  On success the optional fields
default as specified: the price range and resistance are exactly the
extracted ones, and with no explicit stop-loss the stop-loss falls back
to the (truthy) lower bound of the range. -/
theorem C7_parse_failure_iff (text : List Char) (api : Option ℚ) :
    ((∃ r, TL_parse_trading_instruction text api = .ok r) ↔
      (extractSymbol (text.map Char.toUpper) ≠ none ∧
        ∃ lo hi, extractPriceRange (text.map Char.toUpper) = some (lo, hi) ∧ lo ≤ hi)) ∧
    (∀ r, TL_parse_trading_instruction text api = .ok r →
      some r.price_range = (extractPriceRange (text.map Char.toUpper)).map some ∧
      r.resistance = findMarkedNum '压' '力' (text.map Char.toUpper) ∧
      (findMarkedNum '止' '损' (text.map Char.toUpper) = none →
        ∀ lo hi, extractPriceRange (text.map Char.toUpper) = some (lo, hi) → lo ≠ 0 →
          r.stop_loss = some lo)) := by
  simp only [TL_parse_trading_instruction]
  cases hpr : extractPriceRange (text.map Char.toUpper) with
  | none =>
    cases hsl : findMarkedNum '止' '损' (text.map Char.toUpper) with
    | some x =>
      refine ⟨?_, ?_⟩
      · simp
      · intro r hr
        simp at hr
    | none =>
      refine ⟨?_, ?_⟩
      · simp
      · intro r hr
        simp at hr
  | some lh =>
    dsimp only
    by_cases hlt : lh.2 < lh.1
    · rw [if_pos hlt]
      refine ⟨?_, ?_⟩
      · constructor
        · rintro ⟨r, hr⟩
          simp at hr
        · rintro ⟨hsym, lo, hi, heq, hle⟩
          obtain ⟨rfl, rfl⟩ : lh.1 = lo ∧ lh.2 = hi := by
            have := Option.some.inj heq
            exact ⟨congrArg Prod.fst this, congrArg Prod.snd this⟩
          exact absurd hle (not_le.mpr hlt)
      · intro r hr
        simp at hr
    · rw [if_neg hlt]
      cases hsym : extractSymbol (text.map Char.toUpper) with
      | none =>
        refine ⟨?_, ?_⟩
        · simp
        · intro r hr
          simp at hr
      | some sym =>
        refine ⟨?_, ?_⟩
        · constructor
          · intro _
            exact ⟨by simp, lh.1, lh.2, rfl, not_lt.mp hlt⟩
          · intro _
            exact ⟨_, rfl⟩
        · intro r hr
          obtain rfl := (Except.ok.inj hr).symm
          refine ⟨rfl, rfl, ?_⟩
          intro hnone lo hi heq hne
          obtain ⟨rfl, rfl⟩ : lh.1 = lo ∧ lh.2 = hi := by
            have := Option.some.inj heq
            exact ⟨congrArg Prod.fst this, congrArg Prod.snd this⟩
          simp only [hnone, if_pos hne]

/-- Witness for the amended C7 on the instruction `A 30-40`: the parse
succeeds and the stop-loss defaults to the lower bound 30. -/
theorem C7_parse_failure_iff_witness :
    (∃ r, TL_parse_trading_instruction ['A', ' ', '3', '0', '-', '4', '0'] none = .ok r) ∧
    (∀ r, TL_parse_trading_instruction ['A', ' ', '3', '0', '-', '4', '0'] none = .ok r →
      r.stop_loss = some 30) := by
  have h := C7_parse_failure_iff ['A', ' ', '3', '0', '-', '4', '0'] none
  constructor
  · exact h.1.mpr ⟨by decide, 30, 40, by decide, by norm_num⟩
  · intro r hr
    exact (h.2 r hr).2.2 (by decide) 30 40 (by decide) (by norm_num)

theorem findFirstNum_eq_none_iff (s : List Char) :
    findFirstNum s = none ↔ ∀ c ∈ s, ¬ c.isDigit := by
  induction s with
  | nil => simp [findFirstNum]
  | cons c cs ih =>
    by_cases hc : c.isDigit
    · simp [findFirstNum, hc]
    · simp only [findFirstNum, if_neg hc, ih, List.mem_cons]
      constructor
      · rintro h x (rfl | hx)
        · simpa using hc
        · exact h x hx
      · intro h x hx
        exact h x (Or.inr hx)

theorem findMarkedNum_some_has_digit (m1 m2 : Char) (s : List Char) (q : ℚ)
    (h : findMarkedNum m1 m2 s = some q) : ∃ c ∈ s, c.isDigit := by
  induction s with
  | nil => simp [findMarkedNum] at h
  | cons c cs ih =>
    simp only [findMarkedNum] at h
    by_cases hc : c = m1
    · rw [if_pos hc] at h
      cases cs with
      | nil => simp at h
      | cons c2 rest =>
        dsimp only at h
        by_cases hc2 : c2 = m2
        · rw [if_pos hc2] at h
          cases rest with
          | nil =>
            obtain ⟨x, hx, hd⟩ := ih h
            exact ⟨x, List.mem_cons_of_mem c hx, hd⟩
          | cons d tail =>
            dsimp only at h
            by_cases hd : d.isDigit
            · exact ⟨d, by simp, hd⟩
            · rw [if_neg hd] at h
              obtain ⟨x, hx, hxd⟩ := ih h
              exact ⟨x, List.mem_cons_of_mem c hx, hxd⟩
        · rw [if_neg hc2] at h
          obtain ⟨x, hx, hxd⟩ := ih h
          exact ⟨x, List.mem_cons_of_mem c hx, hxd⟩
    · rw [if_neg hc] at h
      obtain ⟨x, hx, hxd⟩ := ih h
      exact ⟨x, List.mem_cons_of_mem c hx, hxd⟩

/-- The Python `TypeError` branch of the parser — an explicit stop-loss
number compared against an absent price — cannot fire: a number after
the stop-loss marker is itself a digit of the text, so the price search
succeeds. -/
theorem TL_parse_typeError_unreachable (text : List Char) (api : Option ℚ) :
    TL_parse_trading_instruction text api ≠ .error .typeErrorNoneComparison := by
  simp only [TL_parse_trading_instruction]
  cases hpr : extractPriceRange (text.map Char.toUpper) with
  | some lh =>
    dsimp only
    by_cases hlt : lh.2 < lh.1
    · rw [if_pos hlt]
      intro h
      cases h
    · rw [if_neg hlt]
      cases hsym : extractSymbol (text.map Char.toUpper) with
      | none =>
        intro h
        cases h
      | some sym =>
        intro h
        cases h
  | none =>
    have hnum : findFirstNum (text.map Char.toUpper) = none := by
      by_contra hne
      obtain ⟨v, hv⟩ := Option.ne_none_iff_exists'.mp hne
      have hpr2 := hpr
      simp only [extractPriceRange, hv] at hpr2
      cases hrest : ((dropRangeSep v.2).dropWhile Char.isWhitespace) with
      | nil =>
        rw [hrest] at hpr2
        exact Option.noConfusion hpr2
      | cons c tail =>
        rw [hrest] at hpr2
        dsimp only at hpr2
        split_ifs at hpr2
    cases hsl : findMarkedNum '止' '损' (text.map Char.toUpper) with
    | some x =>
      obtain ⟨c, hc, hd⟩ := findMarkedNum_some_has_digit '止' '损' _ x hsl
      exact absurd hd ((findFirstNum_eq_none_iff _).mp hnum c hc)
    | none =>
      intro h
      cases h

theorem ensure_default_values_noop (cfg : TradingConfig) (v : InputValues)
    (hf : v.funds ≠ 0) (hi : v.initial_price ≠ 0) (hs : v.stop_loss_price ≠ 0)
    (hn : v.num_grids ≠ 0) (ha : v.allocation_method ≠ 0) :
    ensure_default_values cfg v = v := by
  unfold ensure_default_values
  simp [hf, hi, hs, hn, ha]

theorem TL_core_spec (v : InputValues)
    (hv : validate_inputs v.funds v.initial_price v.stop_loss_price
      v.num_grids v.allocation_method = .ok ()) :
    (TL_core v).1.length = (min v.num_grids (pyInt (v.funds / v.stop_loss_price))).toNat ∧
    ∀ pq ∈ (TL_core v).1, (1 : ℤ) ≤ pq.2 := by
  obtain ⟨hf, hi, hs, hn, ha, hsi, hif, hn100⟩ :=
    (validate_inputs_ok_iff v.funds v.initial_price v.stop_loss_price
      v.num_grids v.allocation_method).mp hv
  simp only [TL_core]
  set m := pyInt (v.funds / v.stop_loss_price) with hm
  set nn := if m < v.num_grids then m else v.num_grids with hnn
  set prices := linspace v.initial_price v.stop_loss_price nn.toNat with hprices
  set qs0 := calculate_weights prices v.allocation_method m with hqs0
  set qs1 := if v.funds < cost prices qs0 then
      qs0.map (fun q : ℤ => max 1 (pyInt ((q : ℚ) * (v.funds / cost prices qs0))))
    else qs0 with hqs1
  set qs2 := (distribute prices qs1 (v.funds - cost prices qs1)).1 with hqs2
  set plan := (prices.zip qs2).map (fun pq => (round2 pq.1, pq.2)) with hplan
  have hm1 : 1 ≤ m :=
    one_le_pyInt _ ((one_le_div hs).mpr (le_trans (le_of_lt hsi) hif))
  have hlenp : prices.length = nn.toNat := by
    rw [hprices]
    exact linspace_length v.initial_price v.stop_loss_price nn.toNat
  have hlq0 : qs0.length = prices.length := by
    rw [hqs0]
    exact calculate_weights_length prices v.allocation_method m ha
  have hlq1 : qs1.length = prices.length := by
    rw [hqs1]
    split_ifs <;> simp [hlq0]
  have hlq2 : qs2.length = prices.length := by
    rw [hqs2]
    unfold distribute
    rw [distLoopF_length]
    exact hlq1
  have h1q1 : ∀ q ∈ qs1, 1 ≤ q := by
    rw [hqs1]
    split_ifs
    · intro q hq
      simp only [List.mem_map] at hq
      obtain ⟨x, _, rfl⟩ := hq
      exact le_max_left 1 _
    · rw [hqs0]
      exact calculate_weights_one_le prices v.allocation_method m hm1
  have h1q2 : ∀ q ∈ qs2, 1 ≤ q := by
    rw [hqs2]
    unfold distribute
    exact distLoopF_one_le _ _ _ _ h1q1
  constructor
  · have hmin : nn = min v.num_grids m := by
      rw [hnn]
      split_ifs <;> omega
    simp only [hplan, List.length_map, List.length_zip, hlq2, hlenp, min_self, hmin]
  · intro pq hpq
    simp only [hplan, List.mem_map] at hpq
    obtain ⟨⟨p, q⟩, hmem, rfl⟩ := hpq
    exact h1q2 q (List.of_mem_zip hmem).2

/-- C1 amended: for every valid request — all eight §4.1 rules hold —
the plan returned by `calculations.calculate_buy_plan` has every entry
quantity ≥ 1 and exactly `min(num_grids, floor(funds /
stop_loss_price))` entries; the `TradingLogic` revision satisfies the
same property only on the valid requests its extra machinery lets
through unchanged: its config guard must admit the grid count
(`num_grids ≤ max_num_grids`) and the falsy-replacement default
substitution must not rewrite the method (`allocation_method ≠ 0`) —
see the counterexample for a valid request it rejects outright. -/
theorem C1_buy_plan_shape (f i s : ℚ) (n a : ℤ)
    (hv : validate_inputs f i s n a = .ok ()) :
    (∃ plan warn, calc_calculate_buy_plan f i s n a = .ok (plan, warn) ∧
      plan.length = (min n ⌊f / s⌋).toNat ∧
      ∀ pq ∈ plan, (1 : ℤ) ≤ pq.2) ∧
    (∀ cfg : TradingConfig, n ≤ cfg.max_num_grids → a ≠ 0 →
      ∃ plan msg summary,
        TL_calculate_buy_plan cfg f i s n a = .ok (plan, msg, some summary) ∧
        plan.length = (min n ⌊f / s⌋).toNat ∧
        ∀ pq ∈ plan, (1 : ℤ) ≤ pq.2) := by
  obtain ⟨hf, hi, hs, hn, ha, hsi, hif, hn100⟩ := (validate_inputs_ok_iff f i s n a).mp hv
  have hfl : pyInt (f / s) = ⌊f / s⌋ := pyInt_eq_floor (f / s) (le_of_lt (div_pos hf hs))
  constructor
  · obtain ⟨hlen, hone, _⟩ := calc_core_spec f i s n a hv
    refine ⟨(calc_core f i s n a).1, (calc_core f i s n a).2, ?_, ?_, hone⟩
    · unfold calc_calculate_buy_plan
      rw [hv]
    · rw [hlen, hfl]
  · intro cfg hmax ha0
    have hnoop : ensure_default_values cfg ⟨f, i, s, n, a⟩ = ⟨f, i, s, n, a⟩ :=
      ensure_default_values_noop cfg ⟨f, i, s, n, a⟩ (ne_of_gt hf) (ne_of_gt hi)
        (ne_of_gt hs) (show n ≠ 0 by omega) ha0
    obtain ⟨hlen, hone⟩ := TL_core_spec ⟨f, i, s, n, a⟩ hv
    refine ⟨(TL_core ⟨f, i, s, n, a⟩).1, (TL_core ⟨f, i, s, n, a⟩).2.1,
      (TL_core ⟨f, i, s, n, a⟩).2.2, ?_, ?_, hone⟩
    · simp only [TL_calculate_buy_plan]
      rw [if_neg (show ¬(n ≤ 0 ∨ cfg.max_num_grids < n) from fun hc => by
        rcases hc with h | h <;> omega), hnoop, hv]
    · rw [hlen, hfl]

/-- Witness for C1 on the request
`funds = 50000, initial = 100, stop = 90, grids = 10, LINEAR`, for both
revisions (`max_num_grids = 10` in the default configuration). -/
theorem C1_buy_plan_shape_witness :
    (∃ plan warn, calc_calculate_buy_plan 50000 100 90 10 2 = .ok (plan, warn) ∧
      plan.length = (min 10 ⌊(50000 : ℚ) / 90⌋).toNat ∧
      ∀ pq ∈ plan, (1 : ℤ) ≤ pq.2) ∧
    (∃ plan msg summary,
      TL_calculate_buy_plan defaultTradingConfig 50000 100 90 10 2 =
        .ok (plan, msg, some summary) ∧
      plan.length = (min 10 ⌊(50000 : ℚ) / 90⌋).toNat ∧
      ∀ pq ∈ plan, (1 : ℤ) ≤ pq.2) := by
  have h := C1_buy_plan_shape 50000 100 90 10 2 (by rfl)
  exact ⟨h.1, h.2 defaultTradingConfig (by decide) (by decide)⟩

/-- Counterexample to C1 as stated: the claim quantifies over every
§4.1-valid request and names both revisions, but
`TradingLogic.calculate_buy_plan` raises its grid-count guard error on
the valid request `(50000, 100, 90, 50, EQUAL)` — 50 grids pass all
eight rules yet exceed the shipped `max_num_grids` fallback of 10 — so
that revision returns no plan at all; and on a valid request with the
EQUAL method (`allocation_method = 0`, falsy) the default substitution
silently rewrites the method to the configured default before
validation. -/
theorem C1_counterexample :
    validate_inputs 50000 100 90 50 0 = .ok () ∧
    TL_calculate_buy_plan defaultTradingConfig 50000 100 90 50 0 =
      .error .gridCountOutOfRange ∧
    ensure_default_values defaultTradingConfig ⟨50000, 100, 90, 10, 0⟩ =
      ⟨50000, 100, 90, 10, 1⟩ := by
  refine ⟨by rfl, by rfl, by rfl⟩
